import Mathlib

/-!
Shallow embedding of `src/pyhdlsim.py` (ZeyHex/pyhdlsim): helper functions
(`file_ext`, `get_define`, `write_memfile`, `remove_tree`), the process-runner
loop `Simulator._exec`, and the per-tool argument/script builders
(`_run_icarus`, `_run_modelsim`, `_run_vivado`).

Strings are modelled by Lean `String`; characters by `Char`.  Child-process
output is modelled as the sequence of values returned by
`child.stdout.readline().decode('utf-8').strip()` paired with, at each read,
whether `child.poll()` is already non-`None`.
-/

/-- Model of Python `str.split(sep)` for a one-character separator, on the
character list of the string: splitting an empty string yields one empty
piece and separators delimit (possibly empty) pieces. -/
def splitOnCh (sep : Char) : List Char → List (List Char)
  | [] => [[]]
  | c :: rest =>
    match splitOnCh sep rest with
    | [] => [[c]]
    | h :: t => if c = sep then [] :: h :: t else (c :: h) :: t

/-- Model of `pathlib.PurePath(...).name`: the last path component after
splitting on `/`, where empty components and `.` components are dropped by
path normalization; the empty string when no such component exists. -/
def pathName (filepath : String) : String :=
  String.mk (((splitOnCh '/' filepath.toList).filter
    (fun comp => comp != [] && comp != ['.'])).getLastD [])

/-- Index of the last occurrence of `'.'` in a character list (Python
`str.rfind('.')`, with `none` for "not found"). -/
def lastDotIdx : List Char → Option Nat
  | [] => none
  | c :: cs =>
    match lastDotIdx cs with
    | some i => some (i + 1)
    | none => if c = '.' then some 0 else none

/-- Embedding of `file_ext` (pyhdlsim.py line 8): `Path(filepath).suffix`,
i.e. `name[i:]` where `i = name.rfind('.')` provided `0 < i < len(name)-1`,
and the empty string otherwise. -/
def file_ext (filepath : String) : String :=
  match lastDotIdx (pathName filepath).toList with
  | none => ""
  | some i =>
    if 0 < i ∧ i + 1 < (pathName filepath).toList.length then
      String.mk ((pathName filepath).toList.drop i)
    else ""

/-- Model of Python substring containment `needle in hay`. -/
def isSubstrOf (needle hay : String) : Bool :=
  hay.toList.tails.any (fun t => needle.toList.isPrefixOf t)

/-- Python `d.split('=')[-1]`: the text after the last `'='` of `d` (all of
`d` when it has no `'='`). -/
def afterLastEq (d : String) : String :=
  String.mk ((splitOnCh '=' d.toList).getLastD d.toList)

/-- Embedding of `get_define` (pyhdlsim.py lines 40-45):
`next(d for d in defines if name in d).split('=')[-1]`, and `None` when the
generator is exhausted (`StopIteration`). -/
def get_define (name : String) (defines : List String) : Option String :=
  match defines.find? (fun d => isSubstrOf name d) with
  | some d => some (afterLastEq d)
  | none => none

/-- Hexadecimal digit character for a value below 16, lowercase, as produced
by Python `'%x'` formatting. -/
def hexDigitChar (n : Nat) : Char :=
  if n < 10 then Char.ofNat (48 + n) else Char.ofNat (87 + n)

/-- Digits of `n` in base 16, most significant first, empty for 0; `fuel`
bounds the recursion depth so that the function is structurally recursive. -/
def hexDigitsAux : Nat → Nat → List Char
  | 0, _ => []
  | fuel + 1, n =>
    if n = 0 then [] else hexDigitsAux fuel (n / 16) ++ [hexDigitChar (n % 16)]

/-- Model of Python `'%x' % n` for a non-negative integer `n`: lowercase
hexadecimal, no `0x` prefix, `"0"` for zero. -/
def toHexPct (n : Nat) : String :=
  if n = 0 then "0" else String.mk (hexDigitsAux (n + 1) n)

/-- Embedding of `write_memfile` (pyhdlsim.py lines 54-57): the file content
produced by `memfile.writelines(['%x\n' % d for d in data])`, namely the
concatenation of the formatted entries in input order. -/
def write_memfile (data : List Nat) : String :=
  match data with
  | [] => ""
  | d :: rest => toHexPct d ++ "\n" ++ write_memfile rest

/-- Lowercase hexadecimal digit characters. -/
def lowerHexChars : List Char := "0123456789abcdef".data

/-- One step of Python `s.replace(err, '')`: scan left to right, removing
each non-overlapping occurrence of `err`; `fuel` bounds the recursion depth
so that the function is structurally recursive (each step consumes at least
one character, so `l.length + 1` fuel always suffices). -/
def pyReplaceAux : Nat → List Char → List Char → List Char
  | 0, _, l => l
  | _ + 1, _, [] => []
  | fuel + 1, err, c :: rest =>
    match err with
    | [] => c :: rest
    | e :: es =>
      if (e :: es).isPrefixOf (c :: rest) then
        pyReplaceAux fuel (e :: es) (rest.drop es.length)
      else
        c :: pyReplaceAux fuel (e :: es) rest

/-- Model of Python `s.replace(err, '')` as used at pyhdlsim.py line 138. -/
def pyReplace (s err : String) : String :=
  String.mk (pyReplaceAux (s.toList.length + 1) err.toList s.toList)

/-- The fixed error-marker list `self.sim_errors` (pyhdlsim.py line 85). -/
def sim_errors : List String := ["$error : ", "Error: ", "ERROR: ", "Assertion error"]

/-- One `readline` observation of the child process: the decoded and stripped
line text, and whether `child.poll()` is non-`None` at that moment. -/
structure ReadEvent where
  line : String
  exited : Bool
  deriving DecidableEq, Repr

/-- First marker of `errs` (in list order) contained in `line`, mirroring the
`for err in self.sim_errors: if err in output` scan at lines 135-136. -/
def firstMarker (errs : List String) (line : String) : Option String :=
  errs.find? (fun e => isSubstrOf e line)

/-- Outcome of `Simulator._exec`: the `AssertionError` raised on a matched
marker (carrying the stripped line and the define list), the `RuntimeError`
raised on a non-zero return code (carrying the command representation and the
code), or a normal return. -/
inductive ExecResult where
  | assertionError (msg : String) (defines : List String)
  | runtimeError (cmd : String) (retcode : Int)
  | ok
  deriving DecidableEq, Repr

/-- Embedding of the read loop of `Simulator._exec` (pyhdlsim.py lines
128-142) over the sequence of read events.  Returns the list of echoed lines
together with `some (msg, defines)` when the marker scan raised
`AssertionError (msg, defines)` (after `child.kill()`), or `none` when the
loop terminated via its `break`; once the event list is exhausted the real
loop keeps reading `''` until `poll()` is non-`None` and then breaks, so
exhaustion is also a `none` outcome. -/
def execLoop (errs defines : List String) : List ReadEvent → List String × Option (String × List String)
  | [] => ([], none)
  | ev :: rest =>
    if ev.line = "" ∧ ev.exited = true then ([], none)
    else
      match firstMarker errs ev.line with
      | some e => ([], some (pyReplace ev.line e, defines))
      | none =>
        ((if ev.line = "" then [] else [ev.line]) ++ (execLoop errs defines rest).1,
         (execLoop errs defines rest).2)

/-- Embedding of `Simulator._exec` after the process is spawned (pyhdlsim.py
lines 127-147): run the read loop, then check the return code
(`if self.retcode: raise RuntimeError(...)`).  `cmd` is the command
representation interpolated into the `RuntimeError` message. -/
def execRun (errs defines : List String) (cmd : String) (events : List ReadEvent)
    (retcode : Int) : List String × ExecResult :=
  match execLoop errs defines events with
  | (echo, some (msg, ds)) => (echo, ExecResult.assertionError msg ds)
  | (echo, none) =>
    (echo, if retcode = 0 then ExecResult.ok else ExecResult.runtimeError cmd retcode)

/-- Embedding of the per-source compile line of `Simulator._run_modelsim`
(pyhdlsim.py lines 175-180): `vlog ... -sv ...` for `.v`/`.sv` extensions,
`vcom -93 ...` for the (dotless) `vhd` extension, nothing otherwise.  The
`defines` and `incdirs` arguments are the pre-joined `+define+`/`+incdir+`
strings interpolated into the line. -/
def modelsim_src_line (defines incdirs src : String) : String :=
  if file_ext src = ".v" ∨ file_ext src = ".sv" then
    "vlog -nologo -suppress 2902 " ++ defines ++ " " ++ incdirs ++
      " -sv -timescale \"1 ns / 1 ps\" " ++ src ++ "\n"
  else if file_ext src = "vhd" then
    "vcom -93 " ++ src ++ "\n"
  else ""

/-- The `sources` string accumulated by the `for src in self.sources` loop of
`Simulator._run_modelsim`: concatenation of the per-source compile lines. -/
def modelsim_sources (defines incdirs : String) : List String → String
  | [] => ""
  | src :: rest => modelsim_src_line defines incdirs src ++ modelsim_sources defines incdirs rest

/-- Embedding of the per-source project-file line of `Simulator._run_vivado`
(pyhdlsim.py lines 229-236): `sv work ...` for `.sv`, `verilog work ...` for
`.v`, `vhdl work ...` for the (dotless) `vhd` extension, nothing otherwise. -/
def vivado_src_line (src : String) : Option String :=
  if file_ext src = ".sv" then some ("sv work " ++ src ++ "\n")
  else if file_ext src = ".v" then some ("verilog work " ++ src ++ "\n")
  else if file_ext src = "vhd" then some ("vhdl work " ++ src ++ "\n")
  else none

/-- The `files.prj` content written by `Simulator._run_vivado` (lines
228-238): concatenation of the per-source lines. -/
def vivado_prj : List String → String
  | [] => ""
  | src :: rest => (vivado_src_line src).getD "" ++ vivado_prj rest

/-- Embedding of the `elab_args` string built by `Simulator._run_icarus`
(pyhdlsim.py lines 154-158), following its four `+=` steps:
include-directory flags, define flags, the fixed
`-g2005-sv -s <top> -o <worklib>.vvp` part, then the sources. -/
def icarus_elab_args (incdirs defines sources : List String) (top worklib : String) : String :=
  String.intercalate " " (incdirs.map (fun incdir => "-I " ++ incdir)) ++ " "
    ++ String.intercalate " " (defines.map (fun define => "-D " ++ define)) ++ " "
    ++ ("-g2005-sv -s " ++ top ++ " -o " ++ worklib ++ ".vvp") ++ " "
    ++ String.intercalate " " sources

mutual
/-- File-system node for the workspace-setup model: a regular file or a
directory with an ordered forest of children. -/
inductive FsNode where
  | file : FsNode
  | dir : FsForest → FsNode
/-- Ordered forest of file-system children. -/
inductive FsForest where
  | nil : FsForest
  | cons : FsNode → FsForest → FsForest
end

mutual
/-- Embedding of the body of `remove_tree` (pyhdlsim.py lines 28-37) as seen
from a child entry of the loop `for child in p.glob('*')`: a file child is
`unlink`ed (removed); a directory child is recursively removed, leaving
`none` when its `rmdir` succeeds (empty after child removal) and the residual
directory otherwise. -/
def removeChildNode : FsNode → Option FsNode
  | FsNode.file => none
  | FsNode.dir ch =>
    match removeForest ch with
    | FsForest.nil => none
    | rem => some (FsNode.dir rem)
/-- Removal of every child in a forest: files are unlinked, directories are
recursively removed; any residual (never actually produced) child is kept. -/
def removeForest : FsForest → FsForest
  | FsForest.nil => FsForest.nil
  | FsForest.cons c rest =>
    match removeChildNode c with
    | none => removeForest rest
    | some r => FsForest.cons r (removeForest rest)
end

/-- Embedding of the top-level `remove_tree(dirpath)` on the state of the
target path: it acts only when the path exists and is a directory
(`p.exists() and p.is_dir()`), removing every child and then the directory
itself. -/
def remove_tree : Option FsNode → Option FsNode
  | none => none
  | some FsNode.file => some FsNode.file
  | some (FsNode.dir ch) =>
    match removeForest ch with
    | FsForest.nil => none
    | rem => some (FsNode.dir rem)

/-- Embedding of `make_dir` (pyhdlsim.py lines 18-20): `Path(name).mkdir()`
creates an empty directory, raising `FileExistsError` when the path already
exists. -/
def make_dir : Option FsNode → Except String (Option FsNode)
  | none => Except.ok (some (FsNode.dir FsForest.nil))
  | some _ => Except.error "FileExistsError"

/-- The workspace preparation performed by `Simulator.__init__` (pyhdlsim.py
lines 87-89): `remove_tree(self.cwd)` followed by `make_dir(self.cwd)`. -/
def workspace_setup (s : Option FsNode) : Except String (Option FsNode) :=
  make_dir (remove_tree s)

/-- Appending the empty string on the left is the identity. -/
theorem string_empty_append (s : String) : "" ++ s = s := by
  obtain ⟨d⟩ := s
  rfl

/-- A `find?` over a list whose first satisfying element is `d` returns `d`. -/
theorem find?_append_first {p : String → Bool} (pre post : List String) (d : String)
    (hpre : ∀ e ∈ pre, p e = false) (hd : p d = true) :
    (pre ++ d :: post).find? p = some d := by
  induction pre with
  | nil => simp [List.find?_cons, hd]
  | cons e rest ih =>
    rw [List.cons_append, List.find?_cons_of_neg _ (by simp [hpre e (by simp)])]
    exact ih (fun x hx => hpre x (List.mem_cons_of_mem e hx))

/-- C7: for the defines list `["WIDTH=8", "SIM"]`, `get_define "WIDTH"`
returns `"8"`, and for every defines list and every name contained in none of
its entries, `get_define` returns `none` (a null value) rather than raising:
the `StopIteration` of the exhausted generator is caught and mapped to
`None`. -/
theorem get_define_lookup (name : String) (defines : List String)
    (h : ∀ d ∈ defines, isSubstrOf name d = false) :
    get_define name defines = none
    ∧ get_define "WIDTH" ["WIDTH=8", "SIM"] = some "8" := by
  refine ⟨?_, by decide⟩
  unfold get_define
  rw [List.find?_eq_none.mpr (fun d hd => by simp [h d hd])]

/-- Witness for `get_define_lookup` at the name `"XYZ"`, contained in no
entry of `["WIDTH=8", "SIM"]`. -/
theorem get_define_lookup_witness :
    (∀ d ∈ (["WIDTH=8", "SIM"] : List String), isSubstrOf "XYZ" d = false)
    ∧ get_define "XYZ" ["WIDTH=8", "SIM"] = none :=
  ⟨by decide, (get_define_lookup "XYZ" ["WIDTH=8", "SIM"] (by decide)).1⟩

/-- C10: the define lookup matches by substring containment: for every
defines list split as `pre ++ d :: post` where no entry of `pre` contains the
queried name and `d` does, `get_define` returns the text after the last `'='`
of `d`; in particular the bare define `"SIM"` is returned as its own full
text, and the query `"ID"` against `["WIDTH=8"]` returns `"8"`. -/
theorem get_define_substring_semantics (name d : String) (pre post : List String)
    (hpre : ∀ e ∈ pre, isSubstrOf name e = false)
    (hd : isSubstrOf name d = true) :
    get_define name (pre ++ d :: post) = some (afterLastEq d)
    ∧ get_define "ID" ["WIDTH=8"] = some "8"
    ∧ get_define "SIM" ["WIDTH=8", "SIM"] = some "SIM"
    ∧ afterLastEq "SIM" = "SIM" := by
  refine ⟨?_, by decide, by decide, by decide⟩
  unfold get_define
  rw [find?_append_first pre post d hpre hd]

/-- Witness for `get_define_substring_semantics`: the query `"ID"` occurs
inside the unrelated define name `"WIDTH"`, and the lookup returns that
define's value. -/
theorem get_define_substring_semantics_witness :
    isSubstrOf "ID" "WIDTH=8" = true
    ∧ get_define "ID" ([] ++ "WIDTH=8" :: []) = some (afterLastEq "WIDTH=8") :=
  ⟨by decide,
   (get_define_substring_semantics "ID" "WIDTH=8" [] []
     (fun e he => absurd he (List.not_mem_nil e)) (by decide)).1⟩

/-- C6: the Icarus elaboration argument string decomposes as a flags part
followed by the space-joined ordered source list, where the flags part joins
one `-I` flag per include directory, then one `-D <define>` flag per define
in list order (exactly one per define, as the indexed mapping shows), then
the fixed language-version, top-module and output flags. -/
theorem icarus_elab_args_structure (incdirs defines sources : List String) (top worklib : String) :
    (∃ flags, icarus_elab_args incdirs defines sources top worklib
        = flags ++ String.intercalate " " sources
      ∧ flags = String.intercalate " " (incdirs.map (fun incdir => "-I " ++ incdir)) ++ " "
          ++ String.intercalate " " (defines.map (fun define => "-D " ++ define)) ++ " "
          ++ ("-g2005-sv -s " ++ top ++ " -o " ++ worklib ++ ".vvp") ++ " ")
    ∧ (defines.map (fun define => "-D " ++ define)).length = defines.length
    ∧ ∀ k : Nat, (defines.map (fun define => "-D " ++ define))[k]?
        = (defines[k]?).map (fun define => "-D " ++ define) :=
  ⟨⟨_, rfl, rfl⟩, List.length_map _ _, fun _ => List.getElem?_map _ _ _⟩

/-- Every value below 16 is rendered by `hexDigitChar` as a lowercase
hexadecimal digit. -/
theorem hexDigitChar_mem : ∀ m < 16, hexDigitChar m ∈ lowerHexChars := by decide

/-- Every character emitted by `hexDigitsAux` is a lowercase hexadecimal
digit. -/
theorem hexDigitsAux_mem (fuel : Nat) :
    ∀ (n : Nat), ∀ c ∈ hexDigitsAux fuel n, c ∈ lowerHexChars := by
  induction fuel with
  | zero => intro n c hc; simp [hexDigitsAux] at hc
  | succ fuel ih =>
    intro n c hc
    by_cases hn : n = 0
    · simp [hexDigitsAux, hn] at hc
    · rw [hexDigitsAux, if_neg hn] at hc
      rcases List.mem_append.mp hc with h | h
      · exact ih _ c h
      · rw [List.mem_singleton.mp h]
        exact hexDigitChar_mem _ (Nat.mod_lt _ (by norm_num))

/-- Every character of `toHexPct n` is a lowercase hexadecimal digit. -/
theorem toHexPct_mem (n : Nat) : ∀ c ∈ (toHexPct n).data, c ∈ lowerHexChars := by
  intro c hc
  by_cases hn : n = 0
  · subst hn
    have hc0 : c = '0' := by simpa [toHexPct] using hc
    rw [hc0]; decide
  · rw [toHexPct, if_neg hn] at hc
    exact hexDigitsAux_mem _ _ c hc

/-- The rendering `toHexPct n` is never empty. -/
theorem toHexPct_ne_nil (n : Nat) : (toHexPct n).data ≠ [] := by
  by_cases hn : n = 0
  · simp [toHexPct, hn]
  · rw [toHexPct, if_neg hn]
    obtain ⟨m, hm⟩ := Nat.exists_eq_succ_of_ne_zero hn
    subst hm
    simp [hexDigitsAux]

/-- Newlines in the memory-file content come only from the per-entry
terminators: one per input element. -/
theorem write_memfile_count (data : List Nat) :
    (write_memfile data).data.count '\n' = data.length := by
  induction data with
  | nil => rfl
  | cons d rest ih =>
    rw [write_memfile, String.data_append, String.data_append,
      List.count_append, List.count_append, ih]
    have h0 : (toHexPct d).data.count '\n' = 0 :=
      List.count_eq_zero.mpr (fun hmem => by
        have h := toHexPct_mem d _ hmem
        revert h; decide)
    rw [h0]
    have h1 : List.count '\n' "\n".data = 1 := by decide
    rw [h1, List.length_cons]
    omega

/-- C9: `write_memfile` produces one lowercase hexadecimal value (no `0x`
prefix) per input element, each terminated by a newline, in input order: the
content for `[10, 255]` is exactly `"a\nff\n"`, the content holds exactly one
newline per element, and every entry rendering is a non-empty string of
lowercase hexadecimal digit characters. -/
theorem write_memfile_format :
    write_memfile [10, 255] = "a\nff\n"
    ∧ (∀ data : List Nat, (write_memfile data).data.count '\n' = data.length)
    ∧ (∀ n : Nat, (toHexPct n).data ≠ [] ∧ ∀ c ∈ (toHexPct n).data, c ∈ lowerHexChars) :=
  ⟨by decide, write_memfile_count, fun n => ⟨toHexPct_ne_nil n, toHexPct_mem n⟩⟩

/-- Witness for `write_memfile_format`: the digit `'a'` of the rendering of
10 is a lowercase hexadecimal digit. -/
theorem write_memfile_format_witness :
    'a' ∈ (toHexPct 10).data ∧ 'a' ∈ lowerHexChars :=
  ⟨by decide, (write_memfile_format.2.2 10).2 'a' (by decide)⟩

mutual
/-- Removing a child node always removes it entirely. -/
theorem removeChildNode_none : (n : FsNode) → removeChildNode n = none
  | FsNode.file => rfl
  | FsNode.dir ch => by rw [removeChildNode, removeForest_nil ch]
/-- Removing every child of a forest always leaves it empty. -/
theorem removeForest_nil : (f : FsForest) → removeForest f = FsForest.nil
  | FsForest.nil => rfl
  | FsForest.cons c rest => by
      rw [removeForest, removeChildNode_none c, removeForest_nil rest]
end

/-- C8: workspace setup (remove the directory tree, then create the
directory) is idempotent: started from an absent path or from a directory
with arbitrary (possibly nested) contents, one run leaves the path an
existing empty directory, and a second run on that result does the same. -/
theorem workspace_setup_idempotent (s : Option FsNode)
    (h : s = none ∨ ∃ ch, s = some (FsNode.dir ch)) :
    workspace_setup s = Except.ok (some (FsNode.dir FsForest.nil))
    ∧ workspace_setup (some (FsNode.dir FsForest.nil))
        = Except.ok (some (FsNode.dir FsForest.nil)) := by
  constructor
  · rcases h with rfl | ⟨ch, rfl⟩
    · rfl
    · simp [workspace_setup, remove_tree, removeForest_nil ch, make_dir]
  · rfl

/-- Witness for `workspace_setup_idempotent` on a directory containing a
nested subdirectory and files. -/
theorem workspace_setup_idempotent_witness :
    workspace_setup (some (FsNode.dir (FsForest.cons
        (FsNode.dir (FsForest.cons FsNode.file FsForest.nil))
        (FsForest.cons FsNode.file FsForest.nil))))
      = Except.ok (some (FsNode.dir FsForest.nil)) :=
  (workspace_setup_idempotent _ (Or.inr ⟨_, rfl⟩)).1

/-- Position returned by `lastDotIdx` always carries a dot. -/
theorem lastDotIdx_get : ∀ (l : List Char) (i : Nat), lastDotIdx l = some i → l.get? i = some '.' := by
  intro l
  induction l with
  | nil => intro i h; simp [lastDotIdx] at h
  | cons c cs ih =>
    intro i h
    rw [lastDotIdx] at h
    cases hr : lastDotIdx cs with
    | some j =>
      rw [hr] at h
      have hij : i = j + 1 := (Option.some.inj h).symm
      subst hij
      simpa using ih j hr
    | none =>
      rw [hr] at h
      by_cases hc : c = '.'
      · rw [if_pos hc] at h
        have hi : i = 0 := (Option.some.inj h).symm
        subst hi
        simp [hc]
      · rw [if_neg hc] at h
        cases h

/-- The extension helper returns either the empty string or a dot-prefixed
suffix, for every input path. -/
theorem file_ext_empty_or_dot (p : String) :
    file_ext p = "" ∨ ∃ cs, file_ext p = String.mk ('.' :: cs) := by
  unfold file_ext
  split
  · exact Or.inl rfl
  · rename_i i h
    by_cases hc : 0 < i ∧ i + 1 < (pathName p).toList.length
    · right
      refine ⟨(pathName p).toList.drop (i + 1), ?_⟩
      rw [if_pos hc]
      have hlt : i < (pathName p).toList.length := by omega
      have hget : (pathName p).toList.get? i = some '.' := lastDotIdx_get _ i h
      rw [List.get?_eq_getElem?, List.getElem?_eq_getElem hlt] at hget
      rw [List.drop_eq_getElem_cons hlt, Option.some.inj hget]
    · exact Or.inl (by rw [if_neg hc])

/-- The dotless comparison string `"vhd"` is never produced by the extension
helper. -/
theorem file_ext_ne_vhd (p : String) : file_ext p ≠ "vhd" := by
  rcases file_ext_empty_or_dot p with h | ⟨cs, h⟩ <;> rw [h]
  · decide
  · intro heq
    have hdata : '.' :: cs = "vhd".data := congrArg String.data heq
    rw [show "vhd".data = ['v', 'h', 'd'] from rfl] at hdata
    exact absurd (List.head_eq_of_cons_eq hdata) (by decide)

/-- Concatenating the per-source compile lines distributes over list
append. -/
theorem modelsim_sources_append (defines incdirs : String) (l1 l2 : List String) :
    modelsim_sources defines incdirs (l1 ++ l2)
      = modelsim_sources defines incdirs l1 ++ modelsim_sources defines incdirs l2 := by
  induction l1 with
  | nil =>
    rw [List.nil_append, modelsim_sources, string_empty_append]
  | cons s rest ih =>
    rw [List.cons_append, modelsim_sources, modelsim_sources, ih, String.append_assoc]

/-- C4: for every source path whose extension is `.sv` or `.v`, the ModelSim
script's per-source chunk is a compile line beginning with `vlog` and
carrying the `-sv` SystemVerilog-mode directive, and that chunk appears in
the generated `sources` block wherever the source appears in the list; and
the VHDL branch is unreachable because the extension helper never returns the
dotless string `"vhd"` for any path. -/
theorem modelsim_sv_routing (defines incdirs src : String)
    (h : file_ext src = ".sv" ∨ file_ext src = ".v") :
    (∃ rest, modelsim_src_line defines incdirs src = "vlog " ++ rest)
    ∧ (∃ p q, modelsim_src_line defines incdirs src = p ++ (" -sv " ++ q))
    ∧ (∀ pre post : List String,
        modelsim_sources defines incdirs (pre ++ src :: post)
          = modelsim_sources defines incdirs pre
            ++ (modelsim_src_line defines incdirs src ++ modelsim_sources defines incdirs post))
    ∧ (∀ filepath : String, file_ext filepath ≠ "vhd") := by
  have hcond : file_ext src = ".v" ∨ file_ext src = ".sv" := h.symm
  have hline : modelsim_src_line defines incdirs src
      = "vlog -nologo -suppress 2902 " ++ defines ++ " " ++ incdirs ++
          " -sv -timescale \"1 ns / 1 ps\" " ++ src ++ "\n" := by
    rw [modelsim_src_line, if_pos hcond]
  refine ⟨?_, ?_, ?_, file_ext_ne_vhd⟩
  · refine ⟨"-nologo -suppress 2902 " ++ (defines ++ (" " ++ (incdirs ++
      (" -sv -timescale \"1 ns / 1 ps\" " ++ (src ++ "\n"))))), ?_⟩
    rw [hline]
    apply String.ext
    simp only [String.data_append]
    simp [List.append_assoc]
  · refine ⟨"vlog -nologo -suppress 2902 " ++ defines ++ " " ++ incdirs,
      "-timescale \"1 ns / 1 ps\" " ++ (src ++ "\n"), ?_⟩
    rw [hline]
    apply String.ext
    simp only [String.data_append]
    simp [List.append_assoc]
  · intro pre post
    rw [modelsim_sources_append, modelsim_sources]

/-- Witness for `modelsim_sv_routing` at the source path `"top.sv"`. -/
theorem modelsim_sv_routing_witness :
    (file_ext "top.sv" = ".sv" ∨ file_ext "top.sv" = ".v")
    ∧ ∃ rest, modelsim_src_line "+define+SIM" "" "top.sv" = "vlog " ++ rest :=
  ⟨Or.inl (by decide),
   (modelsim_sv_routing "+define+SIM" "" "top.sv" (Or.inl (by decide))).1⟩

/-- C5 counterexample: the source `"a.vhd"` (extension `.vhd`, which matches
neither the `.sv`/`.v` branches nor the dotless `"vhd"` comparison) yields an
empty Vivado project file: zero lines for a one-element source list, so the
project file does not contain one line per source. -/
theorem vivado_prj_drops_vhd :
    vivado_prj ["a.vhd"] = ""
    ∧ (vivado_prj ["a.vhd"]).data.count '\n' = 0
    ∧ (["a.vhd"] : List String).length = 1 := by
  refine ⟨by decide, by decide, by decide⟩

/-- Branch structure of the Vivado per-source line: only the `.sv` and `.v`
branches are reachable; the `vhd` comparison never matches. -/
theorem vivado_src_line_branches (src : String) :
    vivado_src_line src
      = if file_ext src = ".sv" then some ("sv work " ++ src ++ "\n")
        else if file_ext src = ".v" then some ("verilog work " ++ src ++ "\n")
        else none := by
  unfold vivado_src_line
  by_cases h1 : file_ext src = ".sv"
  · rw [if_pos h1, if_pos h1]
  · rw [if_neg h1, if_neg h1]
    by_cases h2 : file_ext src = ".v"
    · rw [if_pos h2, if_pos h2]
    · rw [if_neg h2, if_neg h2, if_neg (file_ext_ne_vhd src)]

/-- Newline count of the generated project file: one line per source whose
extension is `.sv` or `.v`. -/
theorem vivado_prj_count : ∀ sources : List String,
    (∀ src ∈ sources, ¬ '\n' ∈ src.data) →
    (vivado_prj sources).data.count '\n'
      = (sources.filter (fun src => file_ext src == ".sv" || file_ext src == ".v")).length := by
  intro sources
  induction sources with
  | nil => intro _; rfl
  | cons src rest ih =>
    intro hnl
    have hs : (src.data.count '\n') = 0 :=
      List.count_eq_zero.mpr (hnl src (by simp))
    have hr := ih (fun s hsm => hnl s (List.mem_cons_of_mem _ hsm))
    rw [vivado_prj, String.data_append, List.count_append, hr, List.filter_cons]
    by_cases h1 : file_ext src = ".sv"
    · simp [vivado_src_line_branches, h1, String.data_append, List.count_append, hs]
      omega
    · by_cases h2 : file_ext src = ".v"
      · simp [vivado_src_line_branches, h1, h2, String.data_append, List.count_append, hs]
        omega
      · simp [vivado_src_line_branches, h1, h2]

/-- C5 (amended): the Vivado project file contains exactly one
`<language> work <path>` line per source whose extension is `.sv` (tagged
`sv`) or `.v` (tagged `verilog`), with the fixed library tag `work`; sources
with any other extension - including dot-suffixed VHDL files, since the
extension helper never returns the dotless `"vhd"` the third branch compares
against - contribute no line at all. -/
theorem vivado_prj_lines (sources : List String)
    (hnl : ∀ src ∈ sources, ¬ '\n' ∈ src.data) :
    (∀ src : String, vivado_src_line src
        = if file_ext src = ".sv" then some ("sv work " ++ src ++ "\n")
          else if file_ext src = ".v" then some ("verilog work " ++ src ++ "\n")
          else none)
    ∧ (vivado_prj sources).data.count '\n'
        = (sources.filter (fun src => file_ext src == ".sv" || file_ext src == ".v")).length :=
  ⟨vivado_src_line_branches, vivado_prj_count sources hnl⟩

/-- Witness for `vivado_prj_lines` on a mixed source list: two lines are
produced for three sources. -/
theorem vivado_prj_lines_witness :
    (∀ src ∈ (["a.sv", "b.v", "c.vhd"] : List String), ¬ '\n' ∈ src.data)
    ∧ (vivado_prj ["a.sv", "b.v", "c.vhd"]).data.count '\n'
        = ((["a.sv", "b.v", "c.vhd"] : List String).filter
            (fun src => file_ext src == ".sv" || file_ext src == ".v")).length :=
  ⟨by decide, (vivado_prj_lines ["a.sv", "b.v", "c.vhd"] (by decide)).2⟩

/-- Projection of the runner outcome: the echoed lines are those collected by
the read loop, whatever the return-code check does afterwards. -/
theorem execRun_fst (errs defines : List String) (cmd : String) (events : List ReadEvent)
    (rc : Int) : (execRun errs defines cmd events rc).1 = (execLoop errs defines events).1 := by
  unfold execRun
  rcases hp : execLoop errs defines events with ⟨echo, res⟩
  cases res with
  | none => rfl
  | some p =>
    obtain ⟨msg, ds⟩ := p
    rfl

/-- When no read line contains a marker, the loop never raises. -/
theorem execLoop_snd_none (errs defines : List String) : ∀ events : List ReadEvent,
    (∀ ev ∈ events, firstMarker errs ev.line = none) →
    (execLoop errs defines events).2 = none := by
  intro events
  induction events with
  | nil => intro _; rfl
  | cons ev rest ih =>
    intro h
    simp only [execLoop]
    by_cases hb : ev.line = "" ∧ ev.exited = true
    · rw [if_pos hb]
    · rw [if_neg hb, h ev (by simp)]
      exact ih (fun x hx => h x (List.mem_cons_of_mem _ hx))

/-- When no read event triggers the break and no line contains a marker, the
loop echoes exactly the non-empty lines, in order. -/
theorem execLoop_fst_all (errs defines : List String) : ∀ events : List ReadEvent,
    (∀ ev ∈ events, ¬(ev.line = "" ∧ ev.exited = true)) →
    (∀ ev ∈ events, firstMarker errs ev.line = none) →
    (execLoop errs defines events).1
      = (events.filter (fun ev => ev.line != "")).map (fun ev => ev.line) := by
  intro events
  induction events with
  | nil => intro _ _; rfl
  | cons ev rest ih =>
    intro hb he
    simp only [execLoop]
    rw [if_neg (hb ev (by simp)), he ev (by simp)]
    show (if ev.line = "" then [] else [ev.line]) ++ (execLoop errs defines rest).1 = _
    rw [ih (fun x hx => hb x (List.mem_cons_of_mem _ hx))
      (fun x hx => he x (List.mem_cons_of_mem _ hx)), List.filter_cons]
    by_cases hl : ev.line = ""
    · simp [hl]
    · simp [hl]

/-- Reaching a marker-bearing line raises on that line: the loop's value on
any event list whose first marker-bearing, non-breaking prefix ends at that
line is the echo of the preceding non-empty lines paired with the raised
payload, independent of everything after the line. -/
theorem execLoop_marker (errs defines : List String) (l : String) (b : Bool) (e : String) :
    ∀ pre post : List ReadEvent,
    (∀ ev ∈ pre, firstMarker errs ev.line = none ∧ ¬(ev.line = "" ∧ ev.exited = true)) →
    l ≠ "" →
    firstMarker errs l = some e →
    execLoop errs defines (pre ++ ReadEvent.mk l b :: post)
      = ((pre.filter (fun ev => ev.line != "")).map (fun ev => ev.line),
         some (pyReplace l e, defines)) := by
  intro pre
  induction pre with
  | nil =>
    intro post _ hlne hl
    simp only [List.nil_append, execLoop]
    rw [if_neg (by simp [hlne]), hl]
    rfl
  | cons ev rest ih =>
    intro post hpre hlne hl
    simp only [List.cons_append, execLoop]
    rw [if_neg ((hpre ev (by simp)).2), (hpre ev (by simp)).1]
    show ((if ev.line = "" then [] else [ev.line])
        ++ (execLoop errs defines (rest ++ ReadEvent.mk l b :: post)).1,
      (execLoop errs defines (rest ++ ReadEvent.mk l b :: post)).2) = _
    rw [ih post (fun x hx => hpre x (List.mem_cons_of_mem _ hx)) hlne hl, List.filter_cons]
    by_cases hevl : ev.line = ""
    · simp [hevl]
    · simp [hevl]

/-- C1: whenever the read loop reaches a line containing one of the fixed
error markers (first marker in `sim_errors` order being `e`), the runner
kills the child and raises `AssertionError` carrying the line with every
occurrence of that marker removed together with the active define list; no
later event and no return code influences the outcome, and no further line is
echoed.  In particular the output line `"ERROR: something bad"` raises with
carried message `"something bad"`. -/
theorem exec_marker_raises (defines : List String) (cmd : String) (rc : Int)
    (pre post : List ReadEvent) (l : String) (b : Bool) (e : String)
    (hpre : ∀ ev ∈ pre, firstMarker sim_errors ev.line = none ∧ ¬(ev.line = "" ∧ ev.exited = true))
    (hl : firstMarker sim_errors l = some e) :
    execRun sim_errors defines cmd (pre ++ ReadEvent.mk l b :: post) rc
      = ((pre.filter (fun ev => ev.line != "")).map (fun ev => ev.line),
         ExecResult.assertionError (pyReplace l e) defines)
    ∧ execRun sim_errors ["SIM"] "vvp worklib.vvp -lxt2"
        [ReadEvent.mk "ERROR: something bad" false] 0
      = ([], ExecResult.assertionError "something bad" ["SIM"]) := by
  refine ⟨?_, by decide⟩
  have hlne : l ≠ "" := by
    intro h0
    rw [h0, show firstMarker sim_errors "" = none from by decide] at hl
    cases hl
  unfold execRun
  rw [execLoop_marker sim_errors defines l b e pre post hpre hlne hl]

/-- Witness for `exec_marker_raises`: a single-line output containing the
marker `"Error: "`. -/
theorem exec_marker_raises_witness :
    firstMarker sim_errors "Error: x" = some "Error: "
    ∧ execRun sim_errors [] "cmd" ([] ++ ReadEvent.mk "Error: x" true :: []) 5
      = ([], ExecResult.assertionError (pyReplace "Error: x" "Error: ") []) :=
  ⟨by decide,
   (exec_marker_raises [] "cmd" 5 [] [] "Error: x" true "Error: "
     (fun ev hev => absurd hev (List.not_mem_nil ev)) (by decide)).1⟩

/-- C2 counterexample: a blank (whitespace-only, hence stripped-to-empty)
line read after the child has exited terminates the loop even though a
further non-empty line `"Hello"` follows; that line is neither scanned nor
echoed, so the loop does not process every line of the child's output. -/
theorem exec_blank_line_skip :
    execRun sim_errors [] "cmd" [ReadEvent.mk "" true, ReadEvent.mk "Hello" false] 0
      = ([], ExecResult.ok)
    ∧ ((([ReadEvent.mk "" true, ReadEvent.mk "Hello" false] : List ReadEvent).filter
        (fun ev => ev.line != "")).map (fun ev => ev.line)) = ["Hello"]
    ∧ (execRun sim_errors [] "cmd" [ReadEvent.mk "" true, ReadEvent.mk "Hello" false] 0).1
        ≠ ["Hello"] := by
  refine ⟨by decide, by decide, by decide⟩

/-- C2 (amended): the read loop processes every line read before the first
read that returns an empty (stripped) line while the child has already
exited; in particular, on any event sequence with no such read and no marker
match, every non-empty line is echoed, in order - no line is skipped. -/
theorem exec_processes_lines_until_blank_after_exit (defines : List String) (cmd : String)
    (rc : Int) (events : List ReadEvent)
    (hb : ∀ ev ∈ events, ¬(ev.line = "" ∧ ev.exited = true))
    (he : ∀ ev ∈ events, firstMarker sim_errors ev.line = none) :
    (execRun sim_errors defines cmd events rc).1
      = (events.filter (fun ev => ev.line != "")).map (fun ev => ev.line) := by
  rw [execRun_fst]
  exact execLoop_fst_all sim_errors defines events hb he

/-- Witness for `exec_processes_lines_until_blank_after_exit` on a three-read
sequence with an interior blank line read while the child still runs. -/
theorem exec_processes_lines_witness :
    (∀ ev ∈ ([ReadEvent.mk "a" false, ReadEvent.mk "" false, ReadEvent.mk "b" true] : List ReadEvent),
      ¬(ev.line = "" ∧ ev.exited = true))
    ∧ (execRun sim_errors [] "cmd"
        [ReadEvent.mk "a" false, ReadEvent.mk "" false, ReadEvent.mk "b" true] 0).1 = ["a", "b"] :=
  ⟨by decide,
   (exec_processes_lines_until_blank_after_exit [] "cmd" 0
     [ReadEvent.mk "a" false, ReadEvent.mk "" false, ReadEvent.mk "b" true]
     (by decide) (by decide)).trans (by decide)⟩

/-- C3: when no output line contains an error marker, the runner raises
`RuntimeError` carrying the command representation and the exit code exactly
when the exit code is non-zero, and returns normally when it is zero. -/
theorem exec_retcode_check (defines : List String) (cmd : String) (rc : Int)
    (events : List ReadEvent)
    (he : ∀ ev ∈ events, firstMarker sim_errors ev.line = none) :
    (rc ≠ 0 → (execRun sim_errors defines cmd events rc).2 = ExecResult.runtimeError cmd rc)
    ∧ (rc = 0 → (execRun sim_errors defines cmd events rc).2 = ExecResult.ok) := by
  have h2 := execLoop_snd_none sim_errors defines events he
  constructor
  · intro hrc
    unfold execRun
    rcases hp : execLoop sim_errors defines events with ⟨echo, res⟩
    rw [hp] at h2
    simp only at h2
    subst h2
    simp [hrc]
  · intro hrc
    unfold execRun
    rcases hp : execLoop sim_errors defines events with ⟨echo, res⟩
    rw [hp] at h2
    simp only at h2
    subst h2
    simp [hrc]

/-- Witness for `exec_retcode_check`: exit code 2 with marker-free output
yields the failure carrying code 2. -/
theorem exec_retcode_check_witness :
    ((2 : Int) ≠ 0)
    ∧ (execRun sim_errors [] "xelab -a --prj files.prj top" [ReadEvent.mk "done" false] 2).2
        = ExecResult.runtimeError "xelab -a --prj files.prj top" 2 :=
  ⟨by decide,
   (exec_retcode_check [] "xelab -a --prj files.prj top" 2 [ReadEvent.mk "done" false]
     (by decide)).1 (by decide)⟩
